import Mathlib

/-!
Verification development for the mortar storage/query core
(src/internal/database/database.go).

The relational state kept in PostgreSQL is embedded as explicit Lean data
(lists of rows); each exported operation of the Go file becomes a pure
function threading that state.  SQL statements are translated one by one:
upserts become conditional list updates, `ON CONFLICT DO NOTHING` becomes
a membership test, `ON CONFLICT DO UPDATE` becomes a keyed replacement that
fails (as PostgreSQL does, with a cardinality violation) when the inserted
rows conflict among themselves, and the as-of graph query becomes a
max-time-per-origin filter followed by a merge sort on `(s, p, o)`.
The external SPARQL reasoner is an oracle parameter.  Wall-clock time
(`time.Now()`) and the request identity carried in `context.Context` are
explicit parameters.
-/

namespace Mortar

/-- Decidable equality for `Except`, so concrete runs of the fallible
operations can be checked by `decide`. -/
instance {ε α : Type} [DecidableEq ε] [DecidableEq α] : DecidableEq (Except ε α) :=
  fun x y =>
    match x, y with
    | .ok a, .ok b =>
        if h : a = b then .isTrue (by rw [h]) else .isFalse (by simp [h])
    | .error a, .error b =>
        if h : a = b then .isTrue (by rw [h]) else .isFalse (by simp [h])
    | .ok _, .error _ => .isFalse (by simp)
    | .error _, .ok _ => .isFalse (by simp)

/-- Errors surfaced by the database layer.  Each constructor corresponds to
one error path of database.go (validation, missing api key, failed auth
lookup, unauthorized source, unknown stream, PostgreSQL cardinality
violation in an upsert, reasoner failure). -/
inductive Err where
  | invalidStream
  | invalidDataset
  | invalidTripleDataset
  | noApiKey
  | notAuthorized (source : String)
  | streamNotFound (source name : String)
  | cardinalityViolation
  | sparqlFailure
  deriving DecidableEq

/-- A stream registration request (the `Stream` value passed to
`RegisterStream`; fields as used by database.go: Name, SourceName, Units,
BrickURI, BrickClass, with empty string denoting an absent optional). -/
structure Stream where
  name : String
  sourceName : String
  units : String
  brickURI : String
  brickClass : String
  deriving DecidableEq

/-- A row of the `streams` table: serial id, unique `(source, name)`,
nullable brick_uri/brick_class. -/
structure StreamRow where
  id : Nat
  name : String
  source : String
  units : String
  brickUri : Option String
  brickClass : Option String
  deriving DecidableEq

/-- A row of the `data` hypertable: `(time, stream_id, value)`. -/
structure DataRow where
  time : Nat
  streamId : Nat
  value : ℚ
  deriving DecidableEq

/-- A row of the append-only `triples` table:
`(source, origin, time, s, p, o)`, unique on the full tuple. -/
structure Triple where
  source : String
  origin : String
  time : Nat
  s : String
  p : String
  o : String
  deriving DecidableEq

/-- A row of the `authorizations` table: `(apikey, permission, source)`. -/
structure AuthRow where
  apikey : String
  permission : String
  source : String
  deriving DecidableEq

/-- The relational store. `dataTemp`/`tripleTemp` model the
transaction-scoped staging tables (`data_temp`, `triplet`); `none` means no
staging table exists.  `nextId` models the serial id generator behind
`INSERT INTO streams VALUES(DEFAULT, ...)`. -/
structure DB where
  streams : List StreamRow
  data : List DataRow
  triples : List Triple
  authorizations : List AuthRow
  dataTemp : Option (List DataRow)
  tripleTemp : Option (List Triple)
  nextId : Nat
  deriving DecidableEq

/-- A historical-data batch handed to `InsertHistoricalData`
(`Dataset`: GetSource, GetName and the copied `(time, value)` sequence). -/
structure Dataset where
  source : String
  name : String
  readings : List (Nat × ℚ)
  deriving DecidableEq

/-- A triple batch handed to `AddTriples` (`TripleDataset`: GetSource plus
the `(source, origin, time, s, p, o)` rows it copies in). -/
structure TripleDataset where
  source : String
  rows : List Triple
  deriving DecidableEq

/-- One binding of a SPARQL result cell, as in knakk/sparql results:
a type tag (the code looks for value.Type == "uri") and a value. -/
structure SparqlBinding where
  bindingType : String
  value : String
  deriving DecidableEq

/-- The external reasoner behind `QuerySparql(graph, query)`: it either
fails or returns the list of result rows, each row being the bindings of
that solution.  `len(res.Solutions())` is the number of rows. -/
abbrev Reasoner : Type :=
  String → String → Except Err (List (List SparqlBinding))

/-- Modelled from the spec: the closed set of aggregate functions
(`AggregationFunc.toSQL` is not under src/): mean, sum, min, max, count. -/
inductive AggFunc where
  | mean
  | total
  | low
  | high
  | count
  deriving DecidableEq

/-- Modelled from the spec: the value an aggregate computes over the values
of one `(bucket, stream)` group. -/
def AggFunc.apply : AggFunc → List ℚ → ℚ
  | .mean, vs => vs.sum / (vs.length : ℚ)
  | .total, vs => vs.sum
  | .low, vs =>
      match vs with
      | [] => 0
      | v :: rest => rest.foldl Min.min v
  | .high, vs =>
      match vs with
      | [] => 0
      | v :: rest => rest.foldl Max.max v
  | .count, vs => (vs.length : ℚ)

/-- An export request (`Query`): time range, resolution inputs
(sparql text, explicit uris, source filter, explicit ids) and the optional
aggregation spec. -/
structure Query where
  sparql : String
  uris : List String
  sources : List String
  ids : List Nat
  start : Nat
  endTime : Nat
  aggFunc : Option AggFunc
  aggWindow : Option Nat
  deriving DecidableEq

/-- Modelled from the spec: `checkStream` (not under src/) validates the
required fields — name and source non-empty. -/
def checkStream (st : Stream) : Option Err :=
  if st.name = "" ∨ st.sourceName = "" then some .invalidStream else none

/-- Modelled from the spec: `checkDataset` (not under src/) validates the
shape of an ingestion batch — source and name non-empty. -/
def checkDataset (ds : Dataset) : Option Err :=
  if ds.source = "" ∨ ds.name = "" then some .invalidDataset else none

/-- Modelled from the spec: `checkTripleDataset` (not under src/) validates
a triple batch — source non-empty. -/
def checkTripleDataset (ds : TripleDataset) : Option Err :=
  if ds.source = "" then some .invalidTripleDataset else none

/-- Does one authorization row match `(apikey, permission, source)`? -/
def authMatches (a : AuthRow) (k permission source : String) : Bool :=
  a.apikey == k && a.permission == permission && a.source == source

/-- `checkAuth`: the identity is the apikey carried in the request context
(`ctx.Value(ContextKey("user"))`); a missing identity is an error, and
otherwise the caller is authorized iff the `authorizations` relation has a
positive count of matching rows. -/
def checkAuth (ident : Option String) (db : DB) (permission source : String) :
    Except Err Bool :=
  match ident with
  | none => .error .noApiKey
  | some k =>
      .ok (decide (0 < db.authorizations.countP (fun a => authMatches a k permission source)))

/-- `RunAsTransaction`: run the body on the current state; commit the new
state on success, roll back (returning the original state) on failure. -/
def runAsTransaction (db : DB) (f : DB → Except Err DB) : Option Err × DB :=
  match f db with
  | .ok db2 => (none, db2)
  | .error e => (some e, db)

/-- The classification triple `RegisterStream` appends for a stream with a
brick URI: subject the brick URI, predicate rdf:type, object the brick
class when given and the default Brick Point class otherwise; origin
"stream_registration" and time the current wall clock. -/
def registrationTriple (st : Stream) (now : Nat) : Triple :=
  { source := st.sourceName
    origin := "stream_registration"
    time := now
    s := "<" ++ st.brickURI ++ ">"
    p := "<http://www.w3.org/1999/02/22-rdf-syntax-ns#type>"
    o := if 0 < st.brickClass.length then "<" ++ st.brickClass ++ ">"
         else "<https://brickschema.org/schema/Brick#Point>" }

/-- The `streams` upsert: `INSERT ... ON CONFLICT (source, name) DO UPDATE
SET brick_uri, brick_class, units` — on conflict the existing row keeps its
id and gets the new mutable columns; otherwise a fresh serial id is
assigned. -/
def upsertStreamRow (db : DB) (st : Stream) (brickUri brickClass : Option String) : DB :=
  if db.streams.any (fun r => r.source == st.sourceName && r.name == st.name) then
    { db with streams := db.streams.map (fun r =>
        if r.source == st.sourceName && r.name == st.name then
          { r with units := st.units, brickUri := brickUri, brickClass := brickClass }
        else r) }
  else
    { db with
      streams := db.streams ++
        [{ id := db.nextId, name := st.name, source := st.sourceName,
           units := st.units, brickUri := brickUri, brickClass := brickClass }]
      nextId := db.nextId + 1 }

/-- `INSERT INTO triples ... ON CONFLICT DO NOTHING` for one row: the
insert is skipped only when the exact six-tuple is already present. -/
def insertTripleDoNothing (ts : List Triple) (t : Triple) : List Triple :=
  if ts.contains t then ts else ts ++ [t]

/-- `RegisterStream`: validate, authorize a write on the stream source,
then in one transaction upsert the stream row and, when a brick URI is
present, insert the classification triple (conflict-do-nothing on the full
tuple, whose time column is `time.Now()`, here the explicit `now`). -/
def registerStream (now : Nat) (ident : Option String) (db : DB) (st : Stream) :
    Option Err × DB :=
  match checkStream st with
  | some e => (some e, db)
  | none =>
    match checkAuth ident db "write" st.sourceName with
    | .error e => (some e, db)
    | .ok false => (some (.notAuthorized st.sourceName), db)
    | .ok true =>
      runAsTransaction db (fun d =>
        let brickUri : Option String :=
          if 0 < st.brickURI.length then some st.brickURI else none
        let brickClass : Option String :=
          if 0 < st.brickClass.length then some st.brickClass else none
        let d1 := upsertStreamRow d st brickUri brickClass
        match brickUri with
        | some _ =>
            .ok { d1 with
                  triples := insertTripleDoNothing d1.triples (registrationTriple st now) }
        | none => .ok d1)

/-- The conflict key of the `data` table: unique on `(time, stream_id)`. -/
def dataKey (r : DataRow) : Nat × Nat :=
  (r.time, r.streamId)

/-- Upsert of a single reading: `ON CONFLICT (time, stream_id) DO UPDATE
SET value = EXCLUDED.value` — replace the value of the conflicting row, or
append a new row. -/
def upsertDataRow (rows : List DataRow) (r : DataRow) : List DataRow :=
  if rows.any (fun d => dataKey d == dataKey r) then
    rows.map (fun d => if dataKey d == dataKey r then { d with value := r.value } else d)
  else rows ++ [r]

/-- `INSERT INTO data SELECT * FROM data_temp ON CONFLICT (time, stream_id)
DO UPDATE SET value = EXCLUDED.value`.  PostgreSQL rejects an `ON CONFLICT
DO UPDATE` command whose own source rows conflict with each other
("cannot affect row a second time", cardinality_violation); otherwise every
staged row is upserted. -/
def mergeDataTemp (dest temp : List DataRow) : Except Err (List DataRow) :=
  if (temp.map dataKey).Nodup then .ok (temp.foldl upsertDataRow dest)
  else .error .cardinalityViolation

/-- `InsertHistoricalData`: validate, authorize a write on the dataset
source, then in one transaction resolve the stream id by `(source, name)`
(not-found error if absent), create the `data_temp` staging table, copy the
readings in, merge them into `data` with upsert-on-conflict, and drop the
staging table.  Any failure rolls the whole transaction back. -/
def insertHistoricalData (ident : Option String) (db : DB) (ds : Dataset) :
    Option Err × DB :=
  match checkDataset ds with
  | some e => (some e, db)
  | none =>
    match checkAuth ident db "write" ds.source with
    | .error e => (some e, db)
    | .ok false => (some (.notAuthorized ds.source), db)
    | .ok true =>
      runAsTransaction db (fun d =>
        match d.streams.find? (fun r => r.source == ds.source && r.name == ds.name) with
        | none => .error (.streamNotFound ds.source ds.name)
        | some srow =>
          let d1 := { d with dataTemp := some [] }
          let temp := ds.readings.map
            (fun rv => { time := rv.1, streamId := srow.id, value := rv.2 : DataRow })
          let d2 := { d1 with dataTemp := some temp }
          match mergeDataTemp d2.data temp with
          | .error e => .error e
          | .ok newData => .ok { d2 with data := newData, dataTemp := none })

/-- `INSERT INTO triples SELECT * FROM triplet ON CONFLICT ... DO NOTHING`:
each staged row is appended unless the exact tuple is already present
(rows earlier in the same batch included). -/
def insertTriplesDoNothing (ts : List Triple) (new : List Triple) : List Triple :=
  new.foldl insertTripleDoNothing ts

/-- `AddTriples`: validate, authorize a write on the batch source, then in
one transaction stage the rows into `triplet`, merge them into the triple
log with do-nothing-on-conflict, and drop the staging table. -/
def addTriples (ident : Option String) (db : DB) (ds : TripleDataset) :
    Option Err × DB :=
  match checkTripleDataset ds with
  | some e => (some e, db)
  | none =>
    match checkAuth ident db "write" ds.source with
    | .error e => (some e, db)
    | .ok false => (some (.notAuthorized ds.source), db)
    | .ok true =>
      runAsTransaction db (fun d =>
        let d1 := { d with tripleTemp := some ds.rows }
        .ok { d1 with
              triples := insertTriplesDoNothing d1.triples ds.rows
              tripleTemp := none })

/-- All URI-typed bindings across every column of every result row of a
SPARQL answer (writeMetadataArrow collects value.Value whenever
value.Type == "uri"). -/
def collectUris (rows : List (List SparqlBinding)) : List String :=
  rows.flatMap (fun row => (row.filter (fun b => b.bindingType == "uri")).map (·.value))

/-- Does a stream row match the resolution uris, i.e.
`name = ANY(uris) OR brick_uri = ANY(uris)` (a NULL brick_uri matches
nothing)? -/
def streamUriMatch (r : StreamRow) (uris : List String) : Bool :=
  uris.contains r.name ||
    (match r.brickUri with
     | some u => uris.contains u
     | none => false)

/-- `SELECT id FROM streams WHERE (name = ANY($1) OR brick_uri = ANY($1))`,
with the `AND source = ANY($2)` filter only when an explicit source list is
given, ids collected in table-scan order. -/
def matchStreamIds (streams : List StreamRow) (uris sources : List String) : List Nat :=
  if 0 < sources.length then
    (streams.filter (fun r => streamUriMatch r uris && sources.contains r.source)).map (·.id)
  else
    (streams.filter (fun r => streamUriMatch r uris)).map (·.id)

/-- The id-resolution step of `writeMetadataArrow`: when SPARQL text is
present, query the reasoner on graph "default" and append the ids matching
the collected URIs to `q.Ids`; otherwise, when explicit URIs are present,
append the ids matching them; otherwise leave `q.Ids` as given. -/
def resolveIds (reasoner : Reasoner) (db : DB) (q : Query) : Except Err (List Nat) :=
  if 0 < q.sparql.length then
    match reasoner "default" q.sparql with
    | .error e => .error e
    | .ok rows => .ok (q.ids ++ matchStreamIds db.streams (collectUris rows) q.sources)
  else if 0 < q.uris.length then
    .ok (q.ids ++ matchStreamIds db.streams q.uris q.sources)
  else
    .ok q.ids

/-- The metadata frame contents: `SELECT DISTINCT id, brick_class,
brick_uri, units, name FROM streams WHERE id = ANY($1)` (stream rows are
already distinct per id). -/
def metadataRows (db : DB) (ids : List Nat) : List StreamRow :=
  db.streams.filter (fun r => ids.contains r.id)

/-- `COALESCE(brick_uri, name)`: the label of an exported row. -/
def labelOf (r : StreamRow) : String :=
  match r.brickUri with
  | some u => u
  | none => r.name

/-- Modelled from the spec: the `unified` view (not under src/) joining
each reading with its stream metadata row. -/
def unified (db : DB) : List (DataRow × StreamRow) :=
  db.data.filterMap
    (fun d => (db.streams.find? (fun r => r.id == d.streamId)).map (fun r => (d, r)))

/-- The rows of `unified` selected by the export query:
`time >= start AND time <= end AND stream_id = ANY(ids)`. -/
def dataRowsBase (db : DB) (q : Query) : List (DataRow × StreamRow) :=
  (unified db).filter
    (fun p => decide (q.start ≤ p.1.time) && decide (p.1.time ≤ q.endTime) &&
      q.ids.contains p.1.streamId)

/-- One exported data row: `(time, value, label)`. -/
abbrev OutRow : Type := Nat × ℚ × String

/-- `time_bucket(window, time)`: the left edge of the fixed-width bucket
containing `time`. -/
def timeBucket (window t : Nat) : Nat :=
  window * (t / window)

/-- The data rows produced by the export SQL.  Without an aggregation spec
these are `(time, value, COALESCE(brick_uri, name))`; with one they are
`(time_bucket, aggregate(value), label)` grouped by bucket and stream
(aggregation shape modelled from the spec, as `AggregationFunc.toSQL` is
not under src/). -/
def dataRows (db : DB) (q : Query) : List OutRow :=
  match q.aggFunc, q.aggWindow with
  | some f, some w =>
      let base := dataRowsBase db q
      let keys := (base.map (fun p => (timeBucket w p.1.time, p.2))).eraseDups
      keys.map (fun k =>
        (k.1,
         f.apply ((base.filter
            (fun p => timeBucket w p.1.time == k.1 && p.2 == k.2)).map (fun p => p.1.value)),
         labelOf k.2))
  | _, _ => (dataRowsBase db q).map (fun p => (p.1.time, p.1.value, labelOf p.2))

/-- The accumulate-and-flush loop of `ReadDataChunk`: append each incoming
row to the current record builder and emit a data frame as soon as the
builder holds strictly more than `thresh` rows; after the loop, emit one
final frame with whatever remains (possibly nothing). -/
def chunkLoop (thresh : Nat) : List α → List α → List (List α)
  | [], acc => [acc]
  | x :: xs, acc =>
      if thresh < (acc ++ [x]).length then (acc ++ [x]) :: chunkLoop thresh xs []
      else chunkLoop thresh xs (acc ++ [x])

/-- The data frames `ReadDataChunk` emits for a given row sequence; the
source flush threshold is the literal 2000000 (`rValues.Len() > 2000000`). -/
def chunkFrames (rows : List α) : List (List α) :=
  chunkLoop 2000000 rows []

/-- `ReadDataChunk`: resolve ids (writeMetadataArrow, which also emits the
metadata frame), then stream the selected data rows into chunked frames.
All frames travel in one shared lz4 stream wrapping the sink; the value
returned here is the frame content after decompression.  The request
identity `ident` is carried by the context but never consulted: this path
performs no authorization check. -/
def readDataChunk (ident : Option String) (reasoner : Reasoner) (db : DB) (q : Query) :
    Except Err (List StreamRow × List (List OutRow)) :=
  match resolveIds reasoner db q with
  | .error e => .error e
  | .ok ids =>
      let md := metadataRows db ids
      let rows := dataRows db { q with ids := ids }
      .ok (md, chunkFrames rows)

/-- The times eligible for the per-origin maximum in `GetGraph`: the `time`
column of the triples of the requested graph and origin with
`time <= timestamp` (the `latest` CTE before `MAX`). -/
def originTimesLe (db : DB) (g origin : String) (T : Nat) : List Nat :=
  ((db.triples.filter
      (fun tr => tr.source == g && tr.origin == origin && decide (tr.time ≤ T))).map
    (fun tr => tr.time))

/-- A triple is selected by the as-of query iff it belongs to the requested
graph and its time equals its origin's maximum time `<= timestamp`
(the RIGHT JOIN of `triples` with the `latest` CTE on
`(source, origin, time)`). -/
def tripleSelected (db : DB) (g : String) (T : Nat) (tr : Triple) : Prop :=
  tr.source = g ∧ (originTimesLe db g tr.origin T).maximum = (tr.time : WithBot Nat)

/-- Boolean lexicographic order on `(s, p, o)` rows, the `ORDER BY s, p, o`
of the as-of query. -/
def spoLe (a b : String × String × String) : Bool :=
  decide (a.1 < b.1) ||
    (a.1 == b.1 &&
      (decide (a.2.1 < b.2.1) || (a.2.1 == b.2.1 && decide (a.2.2 ≤ b.2.2))))

/-- `GetGraph`: the `(s, p, o)` rows of the requested graph at the
per-origin maximum time `<= timestamp`, ordered by `(s, p, o)`. -/
def getGraphRows (db : DB) (g : String) (T : Nat) : List (String × String × String) :=
  ((db.triples.filter
      (fun tr => tr.source == g &&
        decide ((originTimesLe db g tr.origin T).maximum = (tr.time : WithBot Nat)))).map
    (fun tr => (tr.s, tr.p, tr.o))).mergeSort spoLe

/-- One `(graph, queryIdx)` job of the qualification fan-out. -/
structure QTask where
  graph : String
  queryIdx : Nat
  deriving DecidableEq

/-- One completed job: its task plus the number of solutions the reasoner
returned. -/
structure QResult where
  graph : String
  queryIdx : Nat
  count : Nat
  deriving DecidableEq

/-- `SELECT DISTINCT source FROM triples`: the named graphs known to the
triple log. -/
def graphsOf (db : DB) : List String :=
  (db.triples.map (fun tr => tr.source)).eraseDups

/-- The R x G job list fed to the task channel: outer loop over query
indices, inner loop over graphs. -/
def qualifyJobs (db : DB) (queries : List String) : List QTask :=
  (List.range queries.length).flatMap
    (fun qi => (graphsOf db).map (fun g => { graph := g, queryIdx := qi }))

/-- The subsequence of jobs a given worker takes from the task channel
under the schedule `sched` (which worker grabs each queued task); there are
four workers. -/
def workerTasks (sched : Nat → Nat) (jobs : List QTask) (w : Nat) : List QTask :=
  (jobs.enum.filter (fun p => sched p.1 % 4 == w)).map (fun p => p.2)

/-- One worker's loop: run each of its tasks against the reasoner in order,
emitting a `(graph, queryIdx, count)` result per success; on the first
error it sends the error and stops taking jobs. -/
def runWorker (reasoner : Reasoner) (queries : List String) :
    List QTask → List QResult × Option Err
  | [] => ([], none)
  | t :: ts =>
      match reasoner t.graph (queries.getD t.queryIdx "") with
      | .error e => ([], some e)
      | .ok rows =>
          let rest := runWorker reasoner queries ts
          ({ graph := t.graph, queryIdx := t.queryIdx, count := rows.length } :: rest.1,
           rest.2)

/-- Folding one completed result into the accumulated
`graph -> counts` map: a graph first seen gets a zero slice of length R,
then the entry at the result's query index is set to its count. -/
def qualifyStep (numQ : Nat) (m : List (String × List Nat)) (r : QResult) :
    List (String × List Nat) :=
  (if m.any (fun p => p.1 == r.graph) then m
   else m ++ [(r.graph, List.replicate numQ 0)]).map
    (fun p => if p.1 == r.graph then (p.1, p.2.set r.queryIdx r.count) else p)

/-- The drain loop of `Qualify`: fold every completed result into the map,
starting from the empty map. -/
def buildQualifyMap (numQ : Nat) (results : List QResult) : List (String × List Nat) :=
  results.foldl (qualifyStep numQ) []

/-- Lookup in the accumulated `graph -> counts` map. -/
def mapLookup (m : List (String × List Nat)) (g : String) : Option (List Nat) :=
  (m.find? (fun p => p.1 == g)).map (fun p => p.2)

/-- `Qualify`: discover the graphs, fan the R x G jobs out to four workers
(`sched` fixes which worker drains each queued task), drain every completed
result into the map, and only then consult the error channel.  When at
least one worker sent an error, both that channel and the `done` channel
are ready at the final `select`, and Go chooses between them uniformly at
random: `pickError` records that choice — `false` takes the `done` branch
and returns a nil error even though a job failed. -/
def qualify (reasoner : Reasoner) (db : DB) (queries : List String)
    (sched : Nat → Nat) (pickError : Bool) :
    List (String × List Nat) × Option Err :=
  let jobs := qualifyJobs db queries
  let runs := (List.range 4).map (fun w => runWorker reasoner queries (workerTasks sched jobs w))
  let results := (runs.map (fun p => p.1)).flatten
  let errs := runs.filterMap (fun p => p.2)
  let m := buildQualifyMap queries.length results
  match errs with
  | [] => (m, none)
  | e :: _ => (m, if pickError then some e else none)

/-- Fixture: one authorization row granting write on source "src" to
apikey "k". -/
def authK : AuthRow :=
  { apikey := "k", permission := "write", source := "src" }

/-- Fixture: an empty store whose only authorization row is `authK`. -/
def dbBase : DB :=
  { streams := [], data := [], triples := [], authorizations := [authK],
    dataTemp := none, tripleTemp := none, nextId := 1 }

/-- Fixture: a classified stream registration request (brick URI given, no
explicit brick class). -/
def stPoint : Stream :=
  { name := "s1", sourceName := "src", units := "F", brickURI := "urn:uri", brickClass := "" }

/-- Fixture: the same stream request without classification. -/
def stPlain : Stream :=
  { stPoint with brickURI := "" }

/-- Fixture: the store after registering `stPoint` at wall-clock time 0. -/
def dbReg1 : DB :=
  (registerStream 0 (some "k") dbBase stPoint).2

/-- Fixture: the store after registering `stPoint` a second time, with
identical fields, at wall-clock time 1. -/
def dbReg2 : DB :=
  (registerStream 1 (some "k") dbReg1 stPoint).2

/-- Fixture: the store with the unclassified stream registered
(it gets serial id 1). -/
def dbStream : DB :=
  (registerStream 0 (some "k") dbBase stPlain).2

/-- Fixture: the stream row assigned to `stPlain` inside `dbStream`. -/
def srowS1 : StreamRow :=
  { id := 1, name := "s1", source := "src", units := "F", brickUri := none, brickClass := none }

/-- Fixture: one ingestion batch carrying two readings at the same
`(stream, time)` key with different values. -/
def dsDup : Dataset :=
  { source := "src", name := "s1", readings := [(5, 1), (5, 2)] }

/-- Fixture: a dataset naming a stream that was never registered. -/
def dsNope : Dataset :=
  { source := "src", name := "nope", readings := [] }

/-- Fixture: an empty triple batch for source "src". -/
def tdsEmpty : TripleDataset :=
  { source := "src", rows := [] }

/-- Fixture: a reasoner that fails on every query. -/
def oracleFail : Reasoner :=
  fun _ _ => .error .sparqlFailure

/-- Fixture: a store whose triple log knows the single graph "g". -/
def dbOneGraph : DB :=
  { dbBase with
    triples := [{ source := "g", origin := "o", time := 0, s := "a", p := "b", o := "c" }] }

/-- Fixture: a single URI-typed binding with value "n". -/
def bindingN : SparqlBinding :=
  { bindingType := "uri", value := "n" }

/-- Fixture: a reasoner answering every query with one solution binding the
URI "n". -/
def oracleUriN : Reasoner :=
  fun _ _ => .ok [[bindingN]]

/-- Fixture: a store with a single stream row named "n" (id 7). -/
def dbMatch : DB :=
  { dbBase with
    streams := [{ id := 7, name := "n", source := "src", units := "",
                  brickUri := none, brickClass := none }] }

/-- Fixture: an export query carrying both SPARQL text and an explicit id
list. -/
def qSparqlIds : Query :=
  { sparql := "SELECT", uris := [], sources := [], ids := [42], start := 0, endTime := 0,
    aggFunc := none, aggWindow := none }

/-- Fixture: assertion of origin "o" in graph "g" at time 1. -/
def trEarly : Triple :=
  { source := "g", origin := "o", time := 1, s := "s1", p := "p1", o := "o1" }

/-- Fixture: assertion of origin "o" in graph "g" at time 3. -/
def trLate : Triple :=
  { source := "g", origin := "o", time := 3, s := "s2", p := "p2", o := "o2" }

/-- Fixture: a store whose graph "g" has the origin-"o" batches of times 1
and 3. -/
def dbAsOf : DB :=
  { dbBase with triples := [trEarly, trLate] }

/-- C9: `ReadDataChunk` performs no authorization check — its outcome,
success or failure alike, is a function of the store, the reasoner and the
query only, and two runs that differ only in the identity carried by the
request context are identical. -/
theorem readDataChunk_identity_independent (ident1 ident2 : Option String)
    (reasoner : Reasoner) (db : DB) (q : Query) :
    readDataChunk ident1 reasoner db q = readDataChunk ident2 reasoner db q :=
  rfl

/-- C1: evaluating `RegisterStream` twice with identical stream fields but
later wall-clock time.  Both calls succeed and the stream row (and its id)
is unchanged, but the triple log ends with TWO rdf:type triples for the
stream — the second call appends a duplicate classification triple because
the conflict key of `triples` includes the `time.Now()` timestamp. -/
theorem registerStream_rereg_duplicates_classification :
    (registerStream 0 (some "k") dbBase stPoint).1 = none ∧
    (registerStream 1 (some "k") dbReg1 stPoint).1 = none ∧
    dbReg2.streams = dbReg1.streams ∧
    dbReg1.triples.length = 1 ∧
    dbReg2.triples.length = 2 ∧
    dbReg2.triples.countP
      (fun tr => tr.s == "<urn:uri>" &&
        tr.p == "<http://www.w3.org/1999/02/22-rdf-syntax-ns#type>") = 2 := by
  decide

/-- C2: evaluating `Qualify` on one query and one graph whose single job
fails.  The drain loop leaves an empty map; at the final select both the
error channel and the done channel are ready, and on the done branch
(`pickError = false`) the call returns a nil error even though the job
failed — the same run with the error branch does return the error. -/
theorem qualify_done_branch_drops_error :
    qualify oracleFail dbOneGraph ["q"] (fun _ => 0) false = ([], none) ∧
    qualify oracleFail dbOneGraph ["q"] (fun _ => 0) true = ([], some .sparqlFailure) ∧
    qualifyJobs dbOneGraph ["q"] = [{ graph := "g", queryIdx := 0 }] ∧
    oracleFail "g" "q" = .error .sparqlFailure := by
  decide

/-- C7 counterexample: one `InsertHistoricalData` call whose batch carries
two readings at the same `(stream, time)` key.  The merge statement fails
with PostgreSQL's cardinality violation and the transaction rolls back:
no row at all is stored for the key, not one row with the latest value. -/
theorem insertHistoricalData_intra_batch_conflict_fails :
    insertHistoricalData (some "k") dbStream dsDup = (some .cardinalityViolation, dbStream) ∧
    dbStream.data = [] ∧
    (dbStream.streams.find? (fun r => r.source == "src" && r.name == "s1")).isSome = true := by
  decide

/-- C4 counterexample: a query carrying both SPARQL text and the explicit
id 42.  The SPARQL path is taken and resolves exactly [7], but the call
yields [42, 7]: the resolved id set is appended to the explicit ids rather
than consisting only of the SPARQL matches. -/
theorem resolveIds_keeps_explicit_ids_cex :
    resolveIds oracleUriN dbMatch qSparqlIds = .ok [42, 7] ∧
    matchStreamIds dbMatch.streams (collectUris [[bindingN]]) qSparqlIds.sources = [7] ∧
    (42 : Nat) ∉ [(7 : Nat)] := by
  decide

/-- C4 (amended): id resolution takes exactly one path by priority —
SPARQL text first, else explicit URIs, else nothing — and the ids that path
produces are appended to the ids already in the query; a reasoner error on
the SPARQL path propagates, and a query with no resolution input at all
yields its (empty) id list, not an error. -/
theorem resolveIds_exactly_one_path :
    (∀ (r : Reasoner) (db : DB) (q : Query) (rows : List (List SparqlBinding)),
        0 < q.sparql.length → r "default" q.sparql = .ok rows →
        resolveIds r db q =
          .ok (q.ids ++ matchStreamIds db.streams (collectUris rows) q.sources)) ∧
    (∀ (r : Reasoner) (db : DB) (q : Query) (e : Err),
        0 < q.sparql.length → r "default" q.sparql = .error e →
        resolveIds r db q = .error e) ∧
    (∀ (r : Reasoner) (db : DB) (q : Query),
        q.sparql = "" → 0 < q.uris.length →
        resolveIds r db q = .ok (q.ids ++ matchStreamIds db.streams q.uris q.sources)) ∧
    (∀ (r : Reasoner) (db : DB) (q : Query),
        q.sparql = "" → q.uris = [] → resolveIds r db q = .ok q.ids) ∧
    (∀ (r : Reasoner) (db : DB) (q : Query),
        q.sparql = "" → q.uris = [] → q.ids = [] → resolveIds r db q = .ok []) := by
  refine ⟨?_, ?_, ?_, ?_, ?_⟩
  · intro r db q rows hs hr
    simp [resolveIds, hs, hr]
  · intro r db q e hs hr
    simp [resolveIds, hs, hr]
  · intro r db q hs hu
    simp [resolveIds, hs, hu]
  · intro r db q hs hu
    simp [resolveIds, hs, hu]
  · intro r db q hs hu hi
    simp [resolveIds, hs, hu, hi]

/-- C4 witness: the amended characterization applied to the concrete mixed
query of the counterexample. -/
theorem resolveIds_exactly_one_path_witness :
    resolveIds oracleUriN dbMatch qSparqlIds =
      .ok (qSparqlIds.ids ++
        matchStreamIds dbMatch.streams (collectUris [[bindingN]]) qSparqlIds.sources) :=
  resolveIds_exactly_one_path.1 oracleUriN dbMatch qSparqlIds [[bindingN]] (by decide) rfl

/-- C6: ingesting readings for an unregistered `(source, name)` fails with
the not-found error and leaves the store exactly as it was; more generally
every failing `InsertHistoricalData` call leaves the store unchanged — the
readings relation is untouched and no staging artifacts survive. -/
theorem insertHistoricalData_unregistered_fails_atomically :
    (∀ (ident : Option String) (db : DB) (ds : Dataset),
        checkDataset ds = none →
        checkAuth ident db "write" ds.source = .ok true →
        db.streams.find? (fun r => r.source == ds.source && r.name == ds.name) = none →
        insertHistoricalData ident db ds = (some (.streamNotFound ds.source ds.name), db)) ∧
    (∀ (ident : Option String) (db : DB) (ds : Dataset) (e : Err) (db2 : DB),
        insertHistoricalData ident db ds = (some e, db2) → db2 = db) := by
  constructor
  · intro ident db ds hval hauth hfind
    simp [insertHistoricalData, hval, hauth, runAsTransaction, hfind]
  · intro ident db ds e db2 h
    unfold insertHistoricalData at h
    split at h
    · simp only [Prod.mk.injEq] at h
      exact h.2.symm
    · split at h
      · simp only [Prod.mk.injEq] at h
        exact h.2.symm
      · simp only [Prod.mk.injEq] at h
        exact h.2.symm
      · unfold runAsTransaction at h
        split at h
        · simp at h
        · simp only [Prod.mk.injEq] at h
          exact h.2.symm

/-- C6 witness: the not-found outcome at a concrete unregistered stream. -/
theorem insertHistoricalData_unregistered_witness :
    insertHistoricalData (some "k") dbBase dsNope =
      (some (.streamNotFound "src" "nope"), dbBase) :=
  insertHistoricalData_unregistered_fails_atomically.1 (some "k") dbBase dsNope
    (by decide) (by decide) (by decide)

/-- C8: an identity is authorized iff the authorization relation has at
least one row matching `(apikey, permission, source)`, and each of the
three write operations, invoked with an identity that matches zero rows,
fails with the authorization error and returns the store unchanged (so no
mutation and no staging artifact survives). -/
theorem writes_require_authorization :
    (∀ (k : String) (db : DB) (permission source : String),
        checkAuth (some k) db permission source = .ok true ↔
          ∃ a ∈ db.authorizations,
            a.apikey = k ∧ a.permission = permission ∧ a.source = source) ∧
    (∀ (now : Nat) (ident : Option String) (db : DB) (st : Stream),
        checkStream st = none →
        checkAuth ident db "write" st.sourceName = .ok false →
        registerStream now ident db st = (some (.notAuthorized st.sourceName), db)) ∧
    (∀ (ident : Option String) (db : DB) (ds : Dataset),
        checkDataset ds = none →
        checkAuth ident db "write" ds.source = .ok false →
        insertHistoricalData ident db ds = (some (.notAuthorized ds.source), db)) ∧
    (∀ (ident : Option String) (db : DB) (ds : TripleDataset),
        checkTripleDataset ds = none →
        checkAuth ident db "write" ds.source = .ok false →
        addTriples ident db ds = (some (.notAuthorized ds.source), db)) := by
  refine ⟨?_, ?_, ?_, ?_⟩
  · intro k db permission source
    simp [checkAuth, List.countP_pos_iff, authMatches, and_assoc]
  · intro now ident db st hval hauth
    simp [registerStream, hval, hauth]
  · intro ident db ds hval hauth
    simp [insertHistoricalData, hval, hauth]
  · intro ident db ds hval hauth
    simp [addTriples, hval, hauth]

/-- C8 witness: the three write operations rejected for an apikey with no
matching authorization row, plus a positive authorization at the granted
key. -/
theorem writes_require_authorization_witness :
    registerStream 0 (some "nokey") dbBase stPoint = (some (.notAuthorized "src"), dbBase) ∧
    insertHistoricalData (some "nokey") dbBase dsNope = (some (.notAuthorized "src"), dbBase) ∧
    addTriples (some "nokey") dbBase tdsEmpty = (some (.notAuthorized "src"), dbBase) ∧
    checkAuth (some "k") dbBase "write" "src" = .ok true :=
  ⟨writes_require_authorization.2.1 0 (some "nokey") dbBase stPoint (by decide) (by decide),
   writes_require_authorization.2.2.1 (some "nokey") dbBase dsNope (by decide) (by decide),
   writes_require_authorization.2.2.2 (some "nokey") dbBase tdsEmpty (by decide) (by decide),
   (writes_require_authorization.1 "k" dbBase "write" "src").mpr
     ⟨authK, by decide, rfl, rfl, rfl⟩⟩

theorem chunkLoop_flatten (t : Nat) (xs acc : List α) :
    (chunkLoop t xs acc).flatten = acc ++ xs := by
  induction xs generalizing acc with
  | nil => simp [chunkLoop]
  | cons x xs ih =>
      unfold chunkLoop
      split
      · simp [ih, List.append_assoc]
      · simp [ih, List.append_assoc]

theorem chunkLoop_ne_nil (t : Nat) (xs acc : List α) :
    chunkLoop t xs acc ≠ [] := by
  induction xs generalizing acc with
  | nil => simp [chunkLoop]
  | cons x xs ih =>
      unfold chunkLoop
      split
      · simp
      · exact ih (acc ++ [x])

theorem chunkLoop_dropLast_full (t : Nat) (xs acc : List α) (h : acc.length ≤ t) :
    ((chunkLoop t xs acc).dropLast).all (fun f => f.length == t + 1) = true := by
  induction xs generalizing acc with
  | nil => simp [chunkLoop]
  | cons x xs ih =>
      unfold chunkLoop
      split
      case isTrue hlt =>
        rw [List.dropLast_cons_of_ne_nil (chunkLoop_ne_nil t xs [])]
        rw [List.all_cons]
        refine Bool.and_eq_true_iff.mpr ⟨?_, ih [] (Nat.zero_le t)⟩
        simp only [List.length_append, List.length_singleton, beq_iff_eq]
        simp only [List.length_append, List.length_singleton] at hlt
        omega
      case isFalse hge =>
        refine ih (acc ++ [x]) ?_
        simp only [List.length_append, List.length_singleton] at hge ⊢
        omega

theorem chunkLoop_getLast_small (t : Nat) (xs acc : List α) (h : acc.length ≤ t) :
    ((chunkLoop t xs acc).getLast?.getD []).length ≤ t := by
  induction xs generalizing acc with
  | nil => simpa [chunkLoop]
  | cons x xs ih =>
      unfold chunkLoop
      split
      case isTrue hlt =>
        have hne := chunkLoop_ne_nil t xs ([] : List α)
        obtain ⟨b, bs, hb⟩ : ∃ b bs, chunkLoop t xs ([] : List α) = b :: bs := by
          cases hcl : chunkLoop t xs ([] : List α) with
          | nil => exact absurd hcl hne
          | cons b bs => exact ⟨b, bs, rfl⟩
        rw [hb, List.getLast?_cons_cons]
        have := ih ([] : List α) (Nat.zero_le t)
        rwa [hb] at this
      case isFalse hge =>
        refine ih (acc ++ [x]) ?_
        simp only [List.length_append, List.length_singleton] at hge ⊢
        omega

theorem chunkLoop_pair_of_len_succ (t : Nat) (xs acc : List α)
    (hne : xs ≠ []) (hlen : acc.length + xs.length = t + 1) :
    chunkLoop t xs acc = [acc ++ xs, []] := by
  induction xs generalizing acc with
  | nil => exact absurd rfl hne
  | cons x xs ih =>
      unfold chunkLoop
      cases xs with
      | nil =>
          have hacc : acc.length = t := by
            simpa using hlen
          rw [if_pos (by simp [hacc])]
          simp [chunkLoop]
      | cons y ys =>
          rw [if_neg (by simp; simp at hlen; omega)]
          have hrec := ih (acc ++ [x]) (by simp) (by simp at hlen ⊢; omega)
          rw [hrec, List.append_assoc]
          simp

/-- C3 (amended): the chunked export loop of `ReadDataChunk` — rows are
flushed into a data frame once the accumulated count exceeds 2,000,000
(every non-final frame holds exactly 2,000,001 rows), one final frame
carries the remainder of at most 2,000,000 rows (possibly none), and
concatenating all frames in order reproduces exactly the rows of the
equivalent non-chunked query. -/
theorem readDataChunk_chunk_concat (rows : List α) :
    (chunkFrames rows).flatten = rows ∧
    chunkFrames rows ≠ [] ∧
    ((chunkFrames rows).dropLast).all (fun f => f.length == 2000001) = true ∧
    ((chunkFrames rows).getLast?.getD []).length ≤ 2000000 := by
  refine ⟨?_, ?_, ?_, ?_⟩
  · simpa [chunkFrames] using chunkLoop_flatten 2000000 rows []
  · exact chunkLoop_ne_nil 2000000 rows []
  · exact chunkLoop_dropLast_full 2000000 rows [] (by simp)
  · exact chunkLoop_getLast_small 2000000 rows [] (by simp)

/-- C3 counterexample: feeding exactly 2,000,001 rows through the chunk
loop yields one frame of 2,000,001 rows followed by an empty final frame —
a frame strictly larger than the 2,000,000 threshold, so no flush happened
when the threshold was reached; the flush fires only once the count
exceeds it. -/
theorem readDataChunk_flush_at_threshold_cex :
    chunkFrames (List.replicate 2000001 (0 : ℚ)) =
      [List.replicate 2000001 (0 : ℚ), []] ∧
    ∃ f ∈ chunkFrames (List.replicate 2000001 (0 : ℚ)), 2000000 < f.length := by
  have hne : List.replicate 2000001 (0 : ℚ) ≠ [] := by
    rw [Ne, List.replicate_eq_nil_iff]
    omega
  have hlen : (([] : List ℚ)).length + (List.replicate 2000001 (0 : ℚ)).length =
      2000000 + 1 := by
    rw [List.length_nil, List.length_replicate]
  have h : chunkFrames (List.replicate 2000001 (0 : ℚ)) =
      [List.replicate 2000001 (0 : ℚ), []] := by
    have hpair := chunkLoop_pair_of_len_succ 2000000 (List.replicate 2000001 (0 : ℚ)) []
      hne hlen
    rw [List.nil_append] at hpair
    exact hpair
  refine ⟨h, List.replicate 2000001 (0 : ℚ), ?_, ?_⟩
  · rw [h]
    exact List.mem_cons_self _ _
  · rw [List.length_replicate]
    omega

theorem filter_map_replace (rows : List DataRow) (r : DataRow)
    (h : (rows.map dataKey).Nodup)
    (hmem : rows.any (fun d => dataKey d == dataKey r) = true) :
    ((rows.map
        (fun d => if dataKey d == dataKey r then { d with value := r.value } else d)).filter
      (fun d => dataKey d == dataKey r)) = [r] := by
  induction rows with
  | nil => simp at hmem
  | cons a as ih =>
      rw [List.map_cons, List.nodup_cons] at h
      by_cases hk : dataKey a = dataKey r
      · have hra : ({ a with value := r.value } : DataRow) = r := by
          obtain ⟨ht, hs⟩ : a.time = r.time ∧ a.streamId = r.streamId := by
            simpa [dataKey, Prod.ext_iff] using hk
          cases a
          cases r
          simp_all
        have htail : ((as.map
            (fun d => if dataKey d == dataKey r then { d with value := r.value } else d)).filter
              (fun d => dataKey d == dataKey r)) = [] := by
          rw [List.filter_eq_nil_iff]
          intro b hb
          rw [List.mem_map] at hb
          obtain ⟨d, hd, rfl⟩ := hb
          by_cases hdk : dataKey d = dataKey r
          · exact absurd (List.mem_map.mpr ⟨d, hd, hdk.trans hk.symm⟩) h.1
          · simp [hdk]
        rw [List.map_cons, List.filter_cons]
        rw [if_pos (by simp [hk, hra])]
        rw [htail]
        rw [if_pos (by simp [hk]), hra]
      · have hf : (if dataKey a == dataKey r then ({ a with value := r.value } : DataRow)
            else a) = a := by
          rw [if_neg (by simp [hk])]
        have hmem2 : as.any (fun d => dataKey d == dataKey r) = true := by
          rw [List.any_cons] at hmem
          rcases Bool.or_eq_true_iff.mp hmem with h1 | h1
          · exact absurd (by simpa using h1) hk
          · exact h1
        rw [List.map_cons, hf, List.filter_cons, if_neg (by simp [hk])]
        exact ih h.2 hmem2

theorem nodup_upsertDataRow (rows : List DataRow) (r : DataRow)
    (h : (rows.map dataKey).Nodup) :
    ((upsertDataRow rows r).map dataKey).Nodup := by
  unfold upsertDataRow
  split
  case isTrue hany =>
    have hkeys : ((rows.map
        (fun d => if dataKey d == dataKey r then { d with value := r.value } else d)).map
          dataKey) = rows.map dataKey := by
      rw [List.map_map]
      refine List.map_congr_left ?_
      intro d hd
      by_cases hdk : dataKey d = dataKey r
      · obtain ⟨ht, hs⟩ : d.time = r.time ∧ d.streamId = r.streamId := by
          simpa [dataKey, Prod.ext_iff] using hdk
        simp [Function.comp, dataKey, ht, hs]
      · simp [Function.comp, hdk]
    rw [hkeys]
    exact h
  case isFalse hany =>
    rw [List.map_append, List.nodup_append]
    refine ⟨h, List.nodup_singleton _, ?_⟩
    intro x hx hx2
    rw [List.map_singleton, List.mem_singleton] at hx2
    subst hx2
    rw [List.mem_map] at hx
    obtain ⟨d, hd, hdx⟩ := hx
    exact hany (List.any_eq_true.mpr ⟨d, hd, by simp [hdx]⟩)

theorem filter_upsertDataRow (rows : List DataRow) (r : DataRow)
    (h : (rows.map dataKey).Nodup) :
    (upsertDataRow rows r).filter (fun d => dataKey d == dataKey r) = [r] := by
  unfold upsertDataRow
  split
  case isTrue hany => exact filter_map_replace rows r h hany
  case isFalse hany =>
    rw [List.filter_append]
    have h1 : rows.filter (fun d => dataKey d == dataKey r) = [] := by
      rw [List.filter_eq_nil_iff]
      intro d hd hdk
      exact hany (List.any_eq_true.mpr ⟨d, hd, hdk⟩)
    rw [h1, List.nil_append, List.filter_cons, if_pos (by simp)]
    rfl

theorem insertHistoricalData_single_ok
    (ident : Option String) (db : DB) (src nm : String) (t : Nat) (v : ℚ) (srow : StreamRow)
    (hval : checkDataset { source := src, name := nm, readings := [(t, v)] } = none)
    (hauth : checkAuth ident db "write" src = .ok true)
    (hfind : db.streams.find? (fun r => r.source == src && r.name == nm) = some srow) :
    insertHistoricalData ident db { source := src, name := nm, readings := [(t, v)] } =
      (none,
       { db with
         data := upsertDataRow db.data { time := t, streamId := srow.id, value := v }
         dataTemp := none }) := by
  simp [insertHistoricalData, hval, hauth, runAsTransaction, hfind, mergeDataTemp]

/-- C7 (amended): ingesting two readings for the same `(stream, time)` key
in two successive `InsertHistoricalData` calls leaves exactly one stored
row for the key and its value is the one ingested last; when the two
conflicting readings arrive inside ONE call, the merge fails with the
cardinality violation instead (see the counterexample). -/
theorem insertHistoricalData_last_write_wins
    (ident : Option String) (db : DB) (src nm : String) (t : Nat) (v1 v2 : ℚ)
    (srow : StreamRow)
    (hval : checkDataset { source := src, name := nm, readings := [(t, v1)] } = none)
    (hauth : checkAuth ident db "write" src = .ok true)
    (hfind : db.streams.find? (fun r => r.source == src && r.name == nm) = some srow)
    (hnodup : (db.data.map dataKey).Nodup) :
    (insertHistoricalData ident db { source := src, name := nm, readings := [(t, v1)] }).1 =
      none ∧
    (insertHistoricalData ident
        (insertHistoricalData ident db
          { source := src, name := nm, readings := [(t, v1)] }).2
        { source := src, name := nm, readings := [(t, v2)] }).1 = none ∧
    ((insertHistoricalData ident
        (insertHistoricalData ident db
          { source := src, name := nm, readings := [(t, v1)] }).2
        { source := src, name := nm, readings := [(t, v2)] }).2.data.filter
      (fun d => dataKey d == (t, srow.id))) =
      [{ time := t, streamId := srow.id, value := v2 }] := by
  have h1 := insertHistoricalData_single_ok ident db src nm t v1 srow hval hauth hfind
  have hval2 : checkDataset { source := src, name := nm, readings := [(t, v2)] } = none := by
    revert hval
    simp [checkDataset]
  have hauth2 : checkAuth ident
      { db with
        data := upsertDataRow db.data { time := t, streamId := srow.id, value := v1 }
        dataTemp := none } "write" src = .ok true := by
    cases ident with
    | none => simp [checkAuth] at hauth
    | some k => simpa [checkAuth] using hauth
  have hfind2 : ({ db with
      data := upsertDataRow db.data { time := t, streamId := srow.id, value := v1 }
      dataTemp := none } : DB).streams.find?
        (fun r => r.source == src && r.name == nm) = some srow := hfind
  have h2 := insertHistoricalData_single_ok ident
    { db with
      data := upsertDataRow db.data { time := t, streamId := srow.id, value := v1 }
      dataTemp := none } src nm t v2 srow hval2 hauth2 hfind2
  refine ⟨by rw [h1], ?_, ?_⟩
  · rw [h1]
    simp only [Prod.snd]
    rw [h2]
  · rw [h1]
    simp only [Prod.snd]
    rw [h2]
    simp only [Prod.snd]
    have hnodup1 : ((upsertDataRow db.data
        { time := t, streamId := srow.id, value := v1 }).map dataKey).Nodup :=
      nodup_upsertDataRow _ _ hnodup
    exact filter_upsertDataRow _ { time := t, streamId := srow.id, value := v2 } hnodup1

/-- C7 witness: the amended last-write-wins theorem at the concrete store
`dbStream`, ingesting value 1 then value 2 at time 5. -/
theorem insertHistoricalData_last_write_wins_witness :
    ((insertHistoricalData (some "k")
        (insertHistoricalData (some "k") dbStream
          { source := "src", name := "s1", readings := [(5, 1)] }).2
        { source := "src", name := "s1", readings := [(5, 2)] }).2.data.filter
      (fun d => dataKey d == (5, srowS1.id))) =
      [{ time := 5, streamId := srowS1.id, value := 2 }] :=
  (insertHistoricalData_last_write_wins (some "k") dbStream "src" "s1" 5 1 2 srowS1
    (by decide) (by decide) (by decide) (by decide)).2.2

theorem mem_originTimesLe (db : DB) (g o : String) (T x : Nat) :
    x ∈ originTimesLe db g o T ↔
      ∃ u ∈ db.triples, u.source = g ∧ u.origin = o ∧ u.time ≤ T ∧ u.time = x := by
  unfold originTimesLe
  rw [List.mem_map]
  constructor
  · rintro ⟨u, hu, rfl⟩
    rw [List.mem_filter] at hu
    obtain ⟨hmem, hcond⟩ := hu
    simp only [Bool.and_eq_true, beq_iff_eq, decide_eq_true_eq] at hcond
    exact ⟨u, hmem, hcond.1.1, hcond.1.2, hcond.2, rfl⟩
  · rintro ⟨u, hu, h1, h2, h3, rfl⟩
    refine ⟨u, ?_, rfl⟩
    rw [List.mem_filter]
    refine ⟨hu, ?_⟩
    simp only [Bool.and_eq_true, beq_iff_eq, decide_eq_true_eq]
    exact ⟨⟨h1, h2⟩, h3⟩

theorem tripleSelected_iff (db : DB) (g : String) (T : Nat) (tr : Triple)
    (htr : tr ∈ db.triples) :
    tripleSelected db g T tr ↔
      (tr.source = g ∧ tr.time ≤ T ∧
        ∀ u ∈ db.triples, u.source = g → u.origin = tr.origin → u.time ≤ T →
          u.time ≤ tr.time) := by
  unfold tripleSelected
  constructor
  · rintro ⟨hs, hmax⟩
    obtain ⟨hmem, hbound⟩ := List.maximum_eq_coe_iff.mp hmax
    obtain ⟨u, hu, hus, huo, hut, hue⟩ := (mem_originTimesLe db g tr.origin T tr.time).mp hmem
    refine ⟨hs, by omega, ?_⟩
    intro u2 hu2 h1 h2 h3
    exact hbound u2.time
      ((mem_originTimesLe db g tr.origin T u2.time).mpr ⟨u2, hu2, h1, h2, h3, rfl⟩)
  · rintro ⟨hs, hle, hmaxim⟩
    refine ⟨hs, List.maximum_eq_coe_iff.mpr ?_⟩
    constructor
    · exact (mem_originTimesLe db g tr.origin T tr.time).mpr ⟨tr, htr, hs, rfl, hle, rfl⟩
    · intro b hb
      obtain ⟨u, hu, h1, h2, h3, hbe⟩ := (mem_originTimesLe db g tr.origin T b).mp hb
      subst hbe
      exact hmaxim u hu h1 h2 h3

theorem spoLe_total (a b : String × String × String) :
    (spoLe a b || spoLe b a) = true := by
  simp only [spoLe, Bool.or_eq_true, Bool.and_eq_true, decide_eq_true_eq, beq_iff_eq]
  rcases lt_trichotomy a.1 b.1 with h | h | h
  · exact Or.inl (Or.inl h)
  · rcases lt_trichotomy a.2.1 b.2.1 with h2 | h2 | h2
    · exact Or.inl (Or.inr ⟨h, Or.inl h2⟩)
    · rcases le_total a.2.2 b.2.2 with h3 | h3
      · exact Or.inl (Or.inr ⟨h, Or.inr ⟨h2, h3⟩⟩)
      · exact Or.inr (Or.inr ⟨h.symm, Or.inr ⟨h2.symm, h3⟩⟩)
    · exact Or.inr (Or.inr ⟨h.symm, Or.inl h2⟩)
  · exact Or.inr (Or.inl h)

theorem spoLe_trans (a b c : String × String × String)
    (hab : spoLe a b = true) (hbc : spoLe b c = true) : spoLe a c = true := by
  simp only [spoLe, Bool.or_eq_true, Bool.and_eq_true, decide_eq_true_eq,
    beq_iff_eq] at hab hbc ⊢
  rcases hab with h1 | ⟨e1, h1⟩
  · rcases hbc with h2 | ⟨e2, h2⟩
    · exact Or.inl (h1.trans h2)
    · exact Or.inl (by rw [← e2]; exact h1)
  · rcases hbc with h2 | ⟨e2, h2⟩
    · exact Or.inl (by rw [e1]; exact h2)
    · refine Or.inr ⟨e1.trans e2, ?_⟩
      rcases h1 with g1 | ⟨f1, g1⟩
      · rcases h2 with g2 | ⟨f2, g2⟩
        · exact Or.inl (g1.trans g2)
        · exact Or.inl (by rw [← f2]; exact g1)
      · rcases h2 with g2 | ⟨f2, g2⟩
        · exact Or.inl (by rw [f1]; exact g2)
        · exact Or.inr ⟨f1.trans f2, g1.trans g2⟩

/-- C5: `GetGraph(g, T)` returns, ordered by `(s, p, o)`, exactly the
projections of the triples of graph `g` whose time equals their origin's
maximum triple time `<= T`; and for an origin whose assertion batches sit
at times `t1 < t2`, a timestamp in `[t1, t2)` selects exactly the `t1`
triples, a timestamp `>= t2` exactly the `t2` triples, and a timestamp
`< t1` none. -/
theorem getGraph_asOf_spec (db : DB) (g : String) (T : Nat) :
    List.Pairwise (fun a b => spoLe a b = true) (getGraphRows db g T) ∧
    (∀ spo, spo ∈ getGraphRows db g T ↔
      ∃ tr ∈ db.triples, tr.source = g ∧ tr.time ≤ T ∧
        (∀ u ∈ db.triples, u.source = g → u.origin = tr.origin → u.time ≤ T →
          u.time ≤ tr.time) ∧
        (tr.s, tr.p, tr.o) = spo) ∧
    (∀ (o : String) (t1 t2 : Nat), t1 < t2 →
      (∃ b ∈ db.triples, b.source = g ∧ b.origin = o ∧ b.time = t2) →
      (∀ u ∈ db.triples, u.source = g → u.origin = o → u.time = t1 ∨ u.time = t2) →
      ∀ tr ∈ db.triples, tr.source = g → tr.origin = o →
        ((T < t1 → ¬ tripleSelected db g T tr) ∧
         (t1 ≤ T → T < t2 → (tripleSelected db g T tr ↔ tr.time = t1)) ∧
         (t2 ≤ T → (tripleSelected db g T tr ↔ tr.time = t2)))) := by
  refine ⟨?_, ?_, ?_⟩
  · exact List.sorted_mergeSort spoLe_trans spoLe_total _
  · intro spo
    unfold getGraphRows
    rw [List.mem_mergeSort, List.mem_map]
    constructor
    · rintro ⟨tr, htr, rfl⟩
      rw [List.mem_filter] at htr
      obtain ⟨hmem, hcond⟩ := htr
      simp only [Bool.and_eq_true, beq_iff_eq, decide_eq_true_eq] at hcond
      obtain ⟨hs, hle, hmax⟩ :=
        (tripleSelected_iff db g T tr hmem).mp ⟨hcond.1, hcond.2⟩
      exact ⟨tr, hmem, hs, hle, hmax, rfl⟩
    · rintro ⟨tr, hmem, hs, hle, hmax, rfl⟩
      refine ⟨tr, ?_, rfl⟩
      rw [List.mem_filter]
      have hsel := (tripleSelected_iff db g T tr hmem).mpr ⟨hs, hle, hmax⟩
      refine ⟨hmem, ?_⟩
      simp only [Bool.and_eq_true, beq_iff_eq, decide_eq_true_eq]
      exact ⟨hsel.1, hsel.2⟩
  · intro o t1 t2 ht12 hb2 hbatch tr htr hts hto
    refine ⟨?_, ?_, ?_⟩
    · intro hT hsel
      obtain ⟨_, hle, _⟩ := (tripleSelected_iff db g T tr htr).mp hsel
      rcases hbatch tr htr hts hto with h | h <;> omega
    · intro hT1 hT2
      constructor
      · intro hsel
        obtain ⟨_, hle, _⟩ := (tripleSelected_iff db g T tr htr).mp hsel
        rcases hbatch tr htr hts hto with h | h <;> omega
      · intro htt
        refine (tripleSelected_iff db g T tr htr).mpr ⟨hts, by omega, ?_⟩
        intro u hu hus huo hut
        rcases hbatch u hu hus (huo.trans hto) with h | h <;> omega
    · intro hT2
      obtain ⟨b, hbmem, hbs, hbo, hbt⟩ := hb2
      constructor
      · intro hsel
        obtain ⟨_, hle, hmax⟩ := (tripleSelected_iff db g T tr htr).mp hsel
        have hble : b.time ≤ tr.time := hmax b hbmem hbs (hbo.trans hto.symm) (by omega)
        rcases hbatch tr htr hts hto with h | h <;> omega
      · intro htt
        refine (tripleSelected_iff db g T tr htr).mpr ⟨hts, by omega, ?_⟩
        intro u hu hus huo hut
        rcases hbatch u hu hus (huo.trans hto) with h | h <;> omega

/-- C5 witness: in the two-batch store `dbAsOf` (origin "o", times 1 and
3), the as-of query at timestamp 2 selects the time-1 triple, rejects the
time-3 triple, and its `(s, p, o)` row appears in the output. -/
theorem getGraph_asOf_witness :
    tripleSelected dbAsOf "g" 2 trEarly ∧
    ¬ tripleSelected dbAsOf "g" 2 trLate ∧
    ("s1", "p1", "o1") ∈ getGraphRows dbAsOf "g" 2 := by
  have h := getGraph_asOf_spec dbAsOf "g" 2
  have hsc := h.2.2 "o" 1 3 (by omega) ⟨trLate, by decide, rfl, rfl, rfl⟩ (by decide)
  refine ⟨?_, ?_, ?_⟩
  · exact ((hsc trEarly (by decide) rfl rfl).2.1 (by decide) (by decide)).mpr rfl
  · intro hsel
    have h3 := ((hsc trLate (by decide) rfl rfl).2.1 (by decide) (by decide)).mp hsel
    exact absurd h3 (by decide)
  · exact (h.2.1 ("s1", "p1", "o1")).mpr ⟨trEarly, by decide, rfl, by decide, by decide, rfl⟩

theorem find?_map_setAtKey (rg g : String) (j c : Nat)
    (m2 : List (String × List Nat)) :
    (m2.map (fun p => if p.1 == rg then (p.1, p.2.set j c) else p)).find?
      (fun p => p.1 == g) =
    (m2.find? (fun p => p.1 == g)).map
      (fun p => if p.1 == rg then (p.1, p.2.set j c) else p) := by
  induction m2 with
  | nil => simp
  | cons a as ih =>
      rw [List.map_cons, List.find?_cons, List.find?_cons]
      have hkey : ((if a.1 == rg then (a.1, a.2.set j c) else a).1 == g) = (a.1 == g) := by
        by_cases hag : a.1 = rg
        · simp [hag]
        · simp [hag]
      rw [hkey]
      cases hg : (a.1 == g) with
      | true => simp
      | false => simpa using ih

theorem find?_qualifyStep_ne (numQ : Nat) (m : List (String × List Nat)) (r : QResult)
    (g : String) (h : r.graph ≠ g) :
    (qualifyStep numQ m r).find? (fun p => p.1 == g) = m.find? (fun p => p.1 == g) := by
  unfold qualifyStep
  have hfound : ∀ (p : String × List Nat), m.find? (fun p2 => p2.1 == g) = some p →
      (if p.1 == r.graph then (p.1, p.2.set r.queryIdx r.count) else p) = p := by
    intro p hp
    have hpk := List.find?_some hp
    rw [beq_iff_eq] at hpk
    rw [if_neg (by simp [hpk, Ne.symm h])]
  by_cases hany : (m.any (fun p => p.1 == r.graph)) = true
  · rw [if_pos hany, find?_map_setAtKey]
    cases hfind : m.find? (fun p => p.1 == g) with
    | none => simp
    | some p =>
        simp only [Option.map_some']
        rw [hfound p hfind]
  · rw [if_neg hany, find?_map_setAtKey, List.find?_append]
    have hsingle : ([(r.graph, List.replicate numQ 0)] : List (String × List Nat)).find?
        (fun p => p.1 == g) = none := by
      simp [List.find?_cons, h]
    rw [hsingle]
    cases hfind : m.find? (fun p => p.1 == g) with
    | none => simp
    | some p =>
        simp only [Option.or_some, Option.map_some']
        rw [hfound p hfind]

theorem find?_qualifyStep_same (numQ : Nat) (m : List (String × List Nat)) (r : QResult) :
    ((qualifyStep numQ m r).find? (fun p => p.1 == r.graph)).isSome = true := by
  unfold qualifyStep
  rw [List.find?_isSome]
  by_cases hany : (m.any (fun p => p.1 == r.graph)) = true
  · rw [if_pos hany]
    obtain ⟨p, hp, hpk⟩ := List.any_eq_true.mp hany
    refine ⟨(p.1, p.2.set r.queryIdx r.count),
      List.mem_map.mpr ⟨p, hp, by rw [if_pos hpk]⟩, ?_⟩
    simpa using hpk
  · rw [if_neg hany]
    refine ⟨(r.graph, (List.replicate numQ 0).set r.queryIdx r.count), ?_, by simp⟩
    refine List.mem_map.mpr ⟨(r.graph, List.replicate numQ 0), ?_, by simp⟩
    simp

theorem mapLookup_foldl_none (numQ : Nat) (R : List QResult)
    (m : List (String × List Nat)) (g : String) :
    mapLookup (R.foldl (qualifyStep numQ) m) g = none ↔
      (mapLookup m g = none ∧ ∀ r ∈ R, r.graph ≠ g) := by
  induction R generalizing m with
  | nil => simp
  | cons r R ih =>
      rw [List.foldl_cons, ih]
      constructor
      · rintro ⟨h1, h2⟩
        by_cases hg : r.graph = g
        · subst hg
          have hsome := find?_qualifyStep_same numQ m r
          unfold mapLookup at h1
          rw [Option.map_eq_none'] at h1
          rw [h1] at hsome
          simp at hsome
        · unfold mapLookup at h1 ⊢
          rw [find?_qualifyStep_ne numQ m r g hg] at h1
          refine ⟨h1, ?_⟩
          intro r2 hr2
          rcases List.mem_cons.mp hr2 with h | h
          · subst h
            exact hg
          · exact h2 r2 h
      · rintro ⟨h1, h2⟩
        have hg : r.graph ≠ g := h2 r (List.mem_cons_self r R)
        refine ⟨?_, fun r2 hr2 => h2 r2 (List.mem_cons_of_mem r hr2)⟩
        unfold mapLookup at h1 ⊢
        rw [find?_qualifyStep_ne numQ m r g hg]
        exact h1

theorem mem_qualifyStep_source (numQ : Nat) (m : List (String × List Nat)) (r : QResult)
    (q : String × List Nat)
    (hq : q ∈ (if m.any (fun p => p.1 == r.graph) then m
               else m ++ [(r.graph, List.replicate numQ 0)])) :
    q ∈ m ∨ q = (r.graph, List.replicate numQ 0) := by
  by_cases hany : (m.any (fun p => p.1 == r.graph)) = true
  · rw [if_pos hany] at hq
    exact Or.inl hq
  · rw [if_neg hany] at hq
    rcases List.mem_append.mp hq with h | h
    · exact Or.inl h
    · exact Or.inr (List.mem_singleton.mp h)

theorem entries_foldl_length (numQ : Nat) (R : List QResult)
    (m : List (String × List Nat)) (hm : ∀ p ∈ m, p.2.length = numQ) :
    ∀ p ∈ R.foldl (qualifyStep numQ) m, p.2.length = numQ := by
  induction R generalizing m with
  | nil =>
      intro p hp
      exact hm p (by simpa using hp)
  | cons r R ih =>
      rw [List.foldl_cons]
      refine ih (qualifyStep numQ m r) ?_
      intro p hp
      unfold qualifyStep at hp
      rw [List.mem_map] at hp
      obtain ⟨q, hq, rfl⟩ := hp
      have hqlen : q.2.length = numQ := by
        rcases mem_qualifyStep_source numQ m r q hq with h | h
        · exact hm q h
        · subst h
          simp
      by_cases hqg : q.1 = r.graph
      · rw [if_pos (by simp [hqg])]
        simpa using hqlen
      · rw [if_neg (by simp [hqg])]
        exact hqlen

theorem entries_foldl_zero (numQ : Nat) (R : List QResult) (g : String) (i : Nat)
    (hR : ∀ r ∈ R, ¬(r.graph = g ∧ r.queryIdx = i)) (m : List (String × List Nat))
    (hm : ∀ p ∈ m, p.1 = g → p.2.getD i 0 = 0) :
    ∀ p ∈ R.foldl (qualifyStep numQ) m, p.1 = g → p.2.getD i 0 = 0 := by
  induction R generalizing m with
  | nil =>
      intro p hp
      exact hm p (by simpa using hp)
  | cons r R ih =>
      rw [List.foldl_cons]
      refine ih (fun r2 hr2 => hR r2 (List.mem_cons_of_mem r hr2)) (qualifyStep numQ m r) ?_
      intro p hp hpg
      unfold qualifyStep at hp
      rw [List.mem_map] at hp
      obtain ⟨q, hq, rfl⟩ := hp
      have hbase : q.1 = g → q.2.getD i 0 = 0 := by
        intro hqg
        rcases mem_qualifyStep_source numQ m r q hq with h | h
        · exact hm q h hqg
        · subst h
          rw [List.getD_eq_getElem?_getD, List.getElem?_replicate]
          split
          · rfl
          · rfl
      by_cases hqg : q.1 = r.graph
      · rw [if_pos (by simp [hqg])] at hpg ⊢
        simp only at hpg ⊢
        have hji : r.queryIdx ≠ i := by
          intro hcontra
          exact hR r (List.mem_cons_self r R) ⟨by rw [← hqg, hpg], hcontra⟩
        rw [List.getD_eq_getElem?_getD, List.getElem?_set_ne hji,
          ← List.getD_eq_getElem?_getD]
        exact hbase hpg
      · rw [if_neg (by simp [hqg])] at hpg ⊢
        exact hbase hpg

/-- C10: in the map `Qualify` returns, a graph is present iff at least one
of its jobs completed; each present graph's counts slice was created as a
zero slice of length R, so an entry whose `(graph, query)` job produced no
completed result reads as 0 — and appending an explicit zero-count result
for such a job changes nothing, making the two indistinguishable. -/
theorem qualify_counts_zero_initialized (numQ : Nat) (R : List QResult) (g : String)
    (i : Nat) :
    (mapLookup (buildQualifyMap numQ R) g = none ↔ ∀ r ∈ R, r.graph ≠ g) ∧
    (∀ cs, mapLookup (buildQualifyMap numQ R) g = some cs → cs.length = numQ) ∧
    ((∀ r ∈ R, ¬(r.graph = g ∧ r.queryIdx = i)) →
      ∀ cs, mapLookup (buildQualifyMap numQ R) g = some cs → cs.getD i 0 = 0) ∧
    ((∃ r ∈ R, r.graph = g) → (∀ r ∈ R, ¬(r.graph = g ∧ r.queryIdx = i)) → i < numQ →
      buildQualifyMap numQ (R ++ [{ graph := g, queryIdx := i, count := 0 }]) =
        buildQualifyMap numQ R) := by
  refine ⟨?_, ?_, ?_, ?_⟩
  · have := mapLookup_foldl_none numQ R [] g
    simpa [buildQualifyMap, mapLookup] using this
  · intro cs hcs
    unfold mapLookup at hcs
    rw [Option.map_eq_some'] at hcs
    obtain ⟨p, hp, rfl⟩ := hcs
    exact entries_foldl_length numQ R [] (by simp) p (List.mem_of_find?_eq_some hp)
  · intro hR cs hcs
    unfold mapLookup at hcs
    rw [Option.map_eq_some'] at hcs
    obtain ⟨p, hp, rfl⟩ := hcs
    have hpg : p.1 = g := by
      have := List.find?_some hp
      rwa [beq_iff_eq] at this
    exact entries_foldl_zero numQ R g i hR [] (by simp) p
      (List.mem_of_find?_eq_some hp) hpg
  · intro hpresent hR hi
    unfold buildQualifyMap
    rw [List.foldl_append, List.foldl_cons, List.foldl_nil]
    set M := R.foldl (qualifyStep numQ) ([] : List (String × List Nat)) with hM
    have hlen : ∀ p ∈ M, p.2.length = numQ := entries_foldl_length numQ R [] (by simp)
    have hzero : ∀ p ∈ M, p.1 = g → p.2.getD i 0 = 0 :=
      entries_foldl_zero numQ R g i hR [] (by simp)
    have hany : M.any (fun p => p.1 == g) = true := by
      by_contra hno
      have hnone : mapLookup M g = none := by
        unfold mapLookup
        rw [Option.map_eq_none', List.find?_eq_none]
        intro p hp
        intro hpk
        exact hno (List.any_eq_true.mpr ⟨p, hp, hpk⟩)
      obtain ⟨r, hr, hrg⟩ := hpresent
      have := (mapLookup_foldl_none numQ R [] g).mp (by simpa [buildQualifyMap, hM] using hnone)
      exact this.2 r hr hrg
    unfold qualifyStep
    rw [if_pos hany]
    have hfix : ∀ p ∈ M,
        (if p.1 == g then (p.1, p.2.set i 0) else p) = p := by
      intro p hp
      by_cases hpg : p.1 = g
      · rw [if_pos (by simp [hpg])]
        have hset : p.2.set i 0 = p.2 := by
          refine List.ext_getElem? ?_
          intro n
          rw [List.getElem?_set]
          split
          case isTrue hni =>
            subst hni
            rw [if_pos (by rw [hlen p hp]; exact hi)]
            have h0 : p.2.getD i 0 = 0 := hzero p hp hpg
            rw [List.getD_eq_getElem?_getD] at h0
            cases hg : p.2[i]? with
            | none =>
                rw [hg] at h0
                have : i < p.2.length := by rw [hlen p hp]; exact hi
                rw [List.getElem?_eq_none_iff] at hg
                omega
            | some v =>
                rw [hg] at h0
                simp at h0
                rw [h0]
          case isFalse hni => rfl
        rw [hset]
      · rw [if_neg (by simp [hpg])]
    calc M.map (fun p => if p.1 == g then (p.1, p.2.set i 0) else p)
        = M.map id := List.map_congr_left (fun p hp => hfix p hp)
      _ = M := List.map_id M

/-- C10 witness: with two queries and the single completed result
`("g", 0, 5)`, the job `("g", 1)` never completed, yet appending an
explicit zero-count result for it leaves the returned map unchanged. -/
theorem qualify_counts_zero_initialized_witness :
    buildQualifyMap 2
        ([{ graph := "g", queryIdx := 0, count := 5 }] ++
          [{ graph := "g", queryIdx := 1, count := 0 }]) =
      buildQualifyMap 2 [{ graph := "g", queryIdx := 0, count := 5 }] :=
  (qualify_counts_zero_initialized 2 [{ graph := "g", queryIdx := 0, count := 5 }] "g" 1).2.2.2
    ⟨{ graph := "g", queryIdx := 0, count := 5 }, by decide, rfl⟩ (by decide) (by decide)

end Mortar
